import Mathlib

/-!
# Shallow embedding of citeproc-rs core routines

This file embeds, directly from the Rust sources, the parts of citeproc-rs
that the checked claims are about:

* cluster ordering and the transactional preview machinery
  (`crates/citeproc/src/processor.rs`: `set_cluster_order_inner`,
  `set_cluster_order`, `save_cluster_state`, `restore_cluster_state`,
  `preview_marked_init`, `preview_citation_cluster`, `insert_cites`,
  `get_bibliography`);
* bibliography ordering (`crates/proc/src/sort.rs`: `sorted_refs`,
  `compare_demoting_none`, the per-key combination step of `bib_ordering`,
  and the `natural_sort` module with `natural_cmp`);
* citation-number range collapsing (`crates/proc/src/ir/transforms.rs`:
  `RangePiece::attempt_append`, `collapse_ranges`);
* the Pandoc flip-flop output pass (`citeproc/src/output/pandoc.rs`:
  `flip_flop`, `flip_flop_inlines`, `output`).

Conventions: interned ids (`ClusterId`, cite ids, `Atom`) are `Nat` or
`String`; `u32` counters are `Nat` (no claim depends on 32-bit wraparound of
these counters, except for `attempt_append`, where the possible `u32`
underflow of `nxt.cnum - 1` is modelled explicitly as a failure, matching
the debug-build panic semantics of Rust). Salsa input tables keyed by id are
modelled as functions from the key type.
-/

namespace Citeproc

/-! ## Cluster numbers and positions (`crates/citeproc` api types) -/

/-- Rust `IntraNote` from the citeproc api: a note number, optionally with an
intra-note index. -/
inductive IntraNote where
  | single (n : Nat)
  | multi (n : Nat) (i : Nat)
  deriving DecidableEq, Repr

/-- Rust `ClusterNumber`: an in-text ordinal or a note position. -/
inductive ClusterNumber where
  | inText (n : Nat)
  | note (i : IntraNote)
  deriving DecidableEq, Repr

/-- Rust `ClusterPosition { id, note }` from the citeproc api. `note = none`
means an in-text cluster. -/
structure ClusterPosition where
  id : Nat
  note : Option Nat
  deriving DecidableEq, Repr

/-- Rust `ReorderingError` from the citeproc api. -/
inductive ReorderingError where
  | nonExistentCluster (id : Nat)
  | nonMonotonicNoteNumber (n : Nat)
  | didNotSupplyZeroPosition
  deriving DecidableEq, Repr

/-- The salsa input store of the `Processor`, restricted to the inputs that
the cluster-ordering and preview code reads and writes: the `cluster_ids`
list, the per-cluster `cluster_note_number` table and the per-cluster
`cluster_cites` table (cites are represented by opaque `Nat` ids), plus the
interned `preview_cluster_id`. -/
structure EngineState where
  cluster_ids : List Nat
  note_numbers : Nat → Option ClusterNumber
  cluster_cites : Nat → List Nat
  preview_id : Nat

/-- Rust `set_cluster_note_number` salsa input setter. -/
def setNoteNumber (st : EngineState) (id : Nat) (n : Option ClusterNumber) : EngineState :=
  { st with note_numbers := fun i => if i = id then n else st.note_numbers i }

/-- Rust `set_cluster_cites` salsa input setter. -/
def setClusterCites (st : EngineState) (id : Nat) (cites : List Nat) : EngineState :=
  { st with cluster_cites := fun i => if i = id then cites else st.cluster_cites i }

/-- Rust `set_cluster_ids` salsa input setter. -/
def setClusterIds (st : EngineState) (ids : List Nat) : EngineState :=
  { st with cluster_ids := ids }

/-- The loop of `set_cluster_order_inner` (processor.rs). Parameters track
the loop state: `intext` is `intext_number`, `thisNote` is
`this_note : Option<(u32, u32)>`, `acc` is the `cluster_ids` vector being
built, and `log` accumulates the `(id, old note number)` pairs passed to the
`mods` callback (the callback either discards them, for `set_cluster_order`,
or pushes them onto a vector, for `preview_marked_init`). `oldIds` is the
`old_cluster_ids` captured on entry. On error the mutated state is returned
as-is (the Rust method takes `&mut self` and returns early). -/
def setClusterOrderLoop (oldIds : List Nat) :
    EngineState → List ClusterPosition → Nat → Option (Nat × Nat) → List Nat →
    List (Nat × Option ClusterNumber) →
    Option ReorderingError × EngineState × List (Nat × Option ClusterNumber)
  | st, [], _, _, acc, log => (none, setClusterIds st acc, log)
  | st, p :: rest, intext, thisNote, acc, log =>
    match p.note with
    | some nn =>
      match thisNote with
      | some (num, index) =>
        if nn < num then
          (some (.nonMonotonicNoteNumber nn), st, log)
        else
          let log := if oldIds.contains p.id then log ++ [(p.id, st.note_numbers p.id)] else log
          if nn = num then
            setClusterOrderLoop oldIds
              (setNoteNumber st p.id (some (.note (.multi num index))))
              rest intext (some (num, index + 1)) (acc ++ [p.id]) log
          else
            setClusterOrderLoop oldIds
              (setNoteNumber st p.id (some (.note (.multi nn 0))))
              rest intext (some (nn, 1)) (acc ++ [p.id]) log
      | none =>
        -- the first note in the document
        setClusterOrderLoop oldIds
          (setNoteNumber st p.id (some (.note (.multi nn 0))))
          rest intext (some (nn, 1)) (acc ++ [p.id]) log
    | none =>
      setClusterOrderLoop oldIds
        (setNoteNumber st p.id (some (.inText intext)))
        rest (intext + 1) thisNote (acc ++ [p.id]) log

/-- Rust `set_cluster_order_inner`: scans the positions, assigning
`ClusterNumber`s, then replaces `cluster_ids`; also returns the `mods` log. -/
def set_cluster_order_inner (st : EngineState) (positions : List ClusterPosition) :
    Option ReorderingError × EngineState × List (Nat × Option ClusterNumber) :=
  setClusterOrderLoop st.cluster_ids st positions 1 none [] []

/-- Rust `set_cluster_order`: `set_cluster_order_inner` with a no-op `mods`
callback. -/
def set_cluster_order (st : EngineState) (positions : List ClusterPosition) :
    Option ReorderingError × EngineState :=
  let r := set_cluster_order_inner st positions
  (r.1, r.2.1)

/-- Rust `OneClusterState` (processor.rs): saved note number and cites of one
cluster. -/
structure OneClusterState where
  my_id : Nat
  cluster_note_number : Option ClusterNumber
  cluster_cites : List Nat

/-- Rust `ClusterState` (processor.rs): the saved inputs restored after a
preview. -/
structure ClusterState where
  cluster_ids : List Nat
  relevant_one : Option OneClusterState
  old_positions : Option (List (Nat × Option ClusterNumber))

/-- Rust `Processor::save_cluster_state`. -/
def save_cluster_state (st : EngineState) (relevant_cluster : Option Nat) : ClusterState :=
  { cluster_ids := st.cluster_ids
    relevant_one :=
      match relevant_cluster with
      | some rc =>
        if st.cluster_ids.contains rc then
          some { my_id := rc
                 cluster_note_number := st.note_numbers rc
                 cluster_cites := st.cluster_cites rc }
        else none
      | none => none
    old_positions := none }

/-- Rust `Processor::restore_cluster_state`. -/
def restore_cluster_state (st : EngineState) (state : ClusterState) : EngineState :=
  let st :=
    match state.relevant_one with
    | some one => setClusterCites (setNoteNumber st one.my_id one.cluster_note_number)
        one.my_id one.cluster_cites
    | none => st
  let st :=
    match state.old_positions with
    | some old_pos => old_pos.foldl (fun s idnum => setNoteNumber s idnum.1 idnum.2) st
    | none => st
  setClusterIds st state.cluster_ids

/-- Rust `Processor::insert_cites`: registers the cluster id if new (with no
position), then replaces its cite list. -/
def insert_cites (st : EngineState) (cluster_id : Nat) (cites : List Nat) : EngineState :=
  let st :=
    if st.cluster_ids.contains cluster_id then st
    else setNoteNumber (setClusterIds st (st.cluster_ids ++ [cluster_id])) cluster_id none
  setClusterCites st cluster_id cites

/-- Rust `PreviewPosition` (the `MarkWithZeroStr` variant resolves interned
strings and is omitted). -/
inductive PreviewPosition where
  | replaceCluster (id : Nat)
  | markWithZero (positions : List ClusterPosition)

/-- Rust `Processor::preview_marked_init`: checks that exactly one position names
the preview cluster, saves state, runs the reordering while logging
overwritten positions into `old_positions`. On error the partially mutated
state is returned (the `?` operator propagates without restoring). -/
def preview_marked_init (st : EngineState) (positions : List ClusterPosition) :
    Except ReorderingError (Nat × ClusterState) × EngineState :=
  if (positions.filter (fun pos => pos.id = st.preview_id)).length ≠ 1 then
    (.error .didNotSupplyZeroPosition, st)
  else
    let state := save_cluster_state st none
    match set_cluster_order_inner st positions with
    | (some e, st1, _) => (.error e, st1)
    | (none, st1, vec) =>
      (.ok (st.preview_id, { state with old_positions := some (vec ++ [(st.preview_id, none)]) }),
        st1)

/-- Rust `Processor::preview_citation_cluster`. The call to
`built_cluster_preview` reads the database without mutating any input, so it
does not appear in the state transition; only the rendered markup (which we
do not model) depends on it. -/
def preview_citation_cluster (st : EngineState) (cites : List Nat) (position : PreviewPosition) :
    Except ReorderingError Unit × EngineState :=
  match position with
  | .replaceCluster cluster_id =>
    if ¬ st.cluster_ids.contains cluster_id then
      (.error (.nonExistentCluster cluster_id), st)
    else
      let state := save_cluster_state st (some cluster_id)
      let st := insert_cites st cluster_id cites
      (.ok (), restore_cluster_state st state)
  | .markWithZero positions =>
    match preview_marked_init st positions with
    | (.error e, st1) => (.error e, st1)
    | (.ok (id, state), st1) =>
      let st2 := insert_cites st1 id cites
      (.ok (), restore_cluster_state st2 state)

/-! ## `get_bibliography` (processor.rs) -/

/-- Rust `BibEntry` from the citeproc api (markup output flattened to a string). -/
structure BibEntry where
  id : String
  value : String
  deriving DecidableEq, Repr

/-- Rust `Processor::get_bibliography`: walks `sorted_refs().0`, keeps the keys
present in the bibliography map, and substitutes a sentinel for empty
renderings. `sortedRefs` is the first component of `sorted_refs()` and
`bibMap` is `get_bibliography_map()`. -/
def get_bibliography (sortedRefs : List String) (bibMap : String → Option String) :
    List BibEntry :=
  ((sortedRefs.filterMap fun k => (bibMap k).map fun v => (k, v)).map fun kv =>
    { id := kv.1
      value := if kv.2.isEmpty then "[CSL STYLE ERROR: reference with no printed form.]"
               else kv.2 })

/-! ## Range collapsing (`crates/proc/src/ir/transforms.rs`) -/

/-- Rust `CnumIx { cnum, ix, force_single }`. -/
structure CnumIx where
  cnum : Nat
  ix : Nat
  force_single : Bool
  deriving DecidableEq, Repr

/-- Rust `RangePiece`. -/
inductive RangePiece where
  | range (a b : CnumIx)
  | single (a : CnumIx)
  deriving DecidableEq, Repr

/-- Rust `RangePiece::attempt_append`. Returns `(new self, emitted piece)`. The
Rust body computes `nxt.cnum - 1` on a `u32` whenever `nxt.force_single` is
false; for `nxt.cnum = 0` that subtraction underflows (a panic in debug
builds), which we model as `none`. -/
def attempt_append (self : RangePiece) (nxt : CnumIx) :
    Option (RangePiece × Option RangePiece) :=
  if nxt.force_single then some (.single nxt, some self)
  else if nxt.cnum = 0 then none
  else
    match self with
    | .single prv =>
      if prv.cnum = nxt.cnum - 1 then some (.range prv nxt, none)
      else some (.single nxt, some (.single prv))
    | .range a e =>
      if e.cnum = nxt.cnum - 1 then some (.range a nxt, none)
      else some (.single nxt, some (.range a e))

/-- The loop of `collapse_ranges`: `wip` is the work-in-progress piece,
`pieces` the emitted ones. -/
def collapseLoop : List CnumIx → RangePiece → List RangePiece → Option (List RangePiece)
  | [], wip, pieces => some (pieces ++ [wip])
  | n :: ns, wip, pieces =>
    match attempt_append wip n with
    | none => none
    | some (wip', some emit) => collapseLoop ns wip' (pieces ++ [emit])
    | some (wip', none) => collapseLoop ns wip' pieces

/-- Rust `collapse_ranges`. -/
def collapse_ranges (nums : List CnumIx) : Option (List RangePiece) :=
  match nums with
  | [] => some []
  | init :: rest => collapseLoop rest (.single init) []

/-! ## `sorted_refs` (crates/proc/src/sort.rs) -/

/-- Accumulator of the two preordering loops in `sorted_refs`: the
`preordered` vector, the `citation_numbers` map, and the running counter
`i`. -/
structure PreorderAcc where
  preordered : List String
  citation_numbers : String → Option Nat
  i : Nat

/-- One step of the cited-refs loop of `sorted_refs`: push a cite's ref id
if it names an existing reference and has not been numbered yet. -/
def citedStep (all : List String) (acc : PreorderAcc) (r : String) : PreorderAcc :=
  if all.contains r ∧ acc.citation_numbers r = none then
    { preordered := acc.preordered ++ [r]
      citation_numbers := fun s => if s = r then some acc.i else acc.citation_numbers s
      i := acc.i + 1 }
  else acc

/-- One step of the uncited loop of `sorted_refs`: every uncited id is
pushed unconditionally ("guaranteed to be a valid reference id already. but
may have duplicated an actual cite"). -/
def uncitedStep (acc : PreorderAcc) (r : String) : PreorderAcc :=
  { preordered := acc.preordered ++ [r]
    citation_numbers := fun s => if s = r then some acc.i else acc.citation_numbers s
    i := acc.i + 1 }

/-- Rust `sorted_refs` (sort.rs). `all` is `db.all_keys()` (as an insertion-order
list), `citeRefs` the ref ids of `db.all_cite_ids()` in document order,
`uncited` is `db.uncited_ordered()`, and `bibSort` abstracts
`style.bibliography.sort` together with the comparator closure built from
`with_bib_context`/`bib_ordering` (the Rust `preordered.sort_by(..)` is a
stable sort by that comparator). Returns the sorted ref list and the final
`citation_numbers` map. -/
def sorted_refs (all citeRefs uncited : List String)
    (bibSort : Option (String → String → Ordering)) :
    List String × (String → Option Nat) :=
  let acc0 : PreorderAcc := { preordered := [], citation_numbers := fun _ => none, i := 1 }
  let acc1 := citeRefs.foldl (citedStep all) acc0
  let acc2 := uncited.foldl uncitedStep acc1
  let refs :=
    match bibSort with
    | some cmp => acc2.preordered.mergeSort (fun a b => cmp a b ≠ .gt)
    | none => acc2.preordered
  let finalMap := refs.enum.foldl
    (fun m ir => fun s => if s = ir.2 then some (ir.1 + 1) else m s)
    acc2.citation_numbers
  (refs, finalMap)

/-! ## Sort-key comparison (`compare_demoting_none` and the per-key step of
`bib_ordering`, crates/proc/src/sort.rs) -/

/-- Rust `Demoted`: which side of a comparison was a missing value. -/
inductive Demoted where
  | left
  | right
  deriving DecidableEq, Repr

/-- Rust `SortDirection` (csl). -/
inductive SortDirection where
  | ascending
  | descending
  deriving DecidableEq, Repr

/-- Rust `compare_demoting_none`: `None` compares greater than `Some` and reports
which side was demoted. `cmp` stands for the `PartialOrd` comparison (with
`unwrap_or(Equal)`, which a total `cmp` renders exact). -/
def compare_demoting_none (cmp : α → α → Ordering) :
    Option α → Option α → Ordering × Option Demoted
  | none, none => (.eq, none)
  | none, some _ => (.gt, some .left)
  | some _, none => (.lt, some .right)
  | some a, some b => (cmp a b, none)

/-- One sort key as observed by the loop of `bib_ordering`: the key's
`direction` and the two values extracted for the left and right reference
(macro rendering, variable lookup, names, date or citation number — the
extraction is abstracted into the two `Option` values it produces). -/
structure SortKeyEval (α : Type) where
  direction : Option SortDirection
  a_value : Option α
  b_value : Option α

/-- The per-key assignment `ord = match (key.direction.as_ref(), demoted)`
inside `bib_ordering`'s loop, applied to the key's
`compare_demoting_none` result. -/
def keyOrd (cmp : α → α → Ordering) (key : SortKeyEval α) : Ordering :=
  let od := compare_demoting_none cmp key.a_value key.b_value
  match key.direction, od.2 with
  | _, some .left => .gt
  | _, some .right => .lt
  | some .descending, _ => od.1.swap
  | _, _ => od.1

/-- Rust `bib_ordering` (sort.rs): `let mut ord = Equal; for key in sort.keys
{ .. ord = .. }; ord` — each iteration overwrites `ord` with that key's
comparison. -/
def bib_ordering (cmp : α → α → Ordering) (keys : List (SortKeyEval α)) : Ordering :=
  keys.foldl (fun _ord key => keyOrd cmp key) .eq

/-! ## The `natural_sort` module (crates/proc/src/sort.rs) -/

namespace natural_sort

/-- Rust `DATE_START = U+E000`. -/
def DATE_START : Char := Char.ofNat 0xE000

/-- Rust `DATE_END = U+E001`. -/
def DATE_END : Char := Char.ofNat 0xE001

/-- Rust `NUM_START = U+E002`. -/
def NUM_START : Char := Char.ofNat 0xE002

/-- Rust `NUM_END = U+E003`. -/
def NUM_END : Char := Char.ofNat 0xE003

/-- nom `char(c)`: consume exactly `c`. Parsers work on `List Char`;
Rust compares `&str` bytewise, and UTF-8 byte order agrees with code-point
order, so `List Char` comparisons are faithful. -/
def charTok (c : Char) : List Char → Option (List Char)
  | x :: rest => if x = c then some rest else none
  | [] => none

/-- nom `take_while(p)`: returns `(remaining, taken)`; never fails. -/
def take_while (p : Char → Bool) : List Char → List Char × List Char
  | [] => ([], [])
  | c :: rest =>
    if p c then
      let rt := take_while p rest
      (rt.1, c :: rt.2)
    else (c :: rest, [])

/-- nom `take_while1(p)`: fails on an empty match. -/
def take_while1 (p : Char → Bool) (inp : List Char) : Option (List Char × List Char) :=
  match take_while p inp with
  | (_, []) => none
  | (rem, t) => some (rem, t)

/-- Helper for `take_while_m_n(1, 8, ..)`: take at most `n` matching
characters. -/
def take_up_to : Nat → (Char → Bool) → List Char → List Char × List Char
  | 0, _, l => (l, [])
  | _ + 1, _, [] => ([], [])
  | n + 1, p, c :: rest =>
    if p c then
      let rt := take_up_to n p rest
      (rt.1, c :: rt.2)
    else (c :: rest, [])

/-- Rust `take_8_digits`: `take_while_m_n(1, 8, is_ascii_digit)`. -/
def take_8_digits (inp : List Char) : Option (List Char × List Char) :=
  match take_up_to 8 (fun c => c.isDigit) inp with
  | (_, []) => none
  | (rem, t) => some (rem, t)

/-- Rust `to_u32` on a digit string. -/
def to_u32 (s : List Char) : Nat :=
  s.foldl (fun acc c => acc * 10 + (c.toNat - '0'.toNat)) 0

/-- Rust `to_i32` on an (unsigned) digit string; the sign is applied by `year`. -/
def to_i32 (s : List Char) : Int :=
  (to_u32 s : Int)

/-- Rust `year_prefix`: `alt((char('+'), char('-')))`. -/
def year_pref (inp : List Char) : Option (List Char × Char) :=
  match charTok '+' inp with
  | some r => some (r, '+')
  | none =>
    match charTok '-' inp with
    | some r => some (r, '-')
    | none => none

/-- Rust `year`: optional sign, one or more ascii digits, then `'_'`; a `'-'`
prefix negates. -/
def year (inp : List Char) : Option (List Char × Int) :=
  let r1 :=
    match year_pref inp with
    | some (r, c) => (r, some c)
    | none => (inp, none)
  match take_while1 (fun c => c.isDigit) r1.1 with
  | none => none
  | some (rem2, y) =>
    match charTok '_' rem2 with
    | none => none
    | some rem3 =>
      some (rem3, match r1.2 with
        | some '-' => -(to_i32 y)
        | _ => to_i32 y)

/-- Rust `CmpDate { year, rest }`. -/
structure CmpDate where
  year : Option Int
  rest : List Char
  deriving DecidableEq, Repr

/-- Rust `date`: optional year then the rest of the segment up to `DATE_END` or
`'/'`. Both sub-parsers are optional, so `date` cannot fail. -/
def date (inp : List Char) : List Char × CmpDate :=
  let r1 :=
    match year inp with
    | some (r, v) => (r, some v)
    | none => (inp, none)
  let r2 := take_while (fun c => ¬(c = DATE_END ∨ c = '/')) r1.1
  (r2.1, { year := r1.2, rest := r2.2 })

/-- Rust `CmpRange`: a single date or a range of two. -/
inductive CmpRange where
  | single (d : CmpDate)
  | range (a b : CmpDate)
  deriving DecidableEq, Repr

/-- A parsed comparison token: plain string, number, or date. -/
inductive Token where
  | str (s : List Char)
  | num (n : Nat)
  | date (d : CmpRange)
  deriving DecidableEq, Repr

/-- Rust `range`: `DATE_START date ('/' date)? DATE_END`. -/
def range (inp : List Char) : Option (List Char × Token) :=
  match charTok DATE_START inp with
  | none => none
  | some rem1 =>
    let rf := date rem1
    let rd :=
      match charTok '/' rf.1 with
      | some r =>
        let rs := date r
        (rs.1, some rs.2)
      | none => (rf.1, none)
    match charTok DATE_END rd.1 with
    | none => none
    | some rem4 =>
      some (rem4, Token.date (match rd.2 with
        | none => .single rf.2
        | some d => .range rf.2 d))

/-- Rust `num`: `NUM_START`, 1–8 ascii digits, `NUM_END`. -/
def num (inp : List Char) : Option (List Char × Token) :=
  match charTok NUM_START inp with
  | none => none
  | some rem1 =>
    match take_8_digits rem1 with
    | none => none
    | some (rem2, ds) =>
      match charTok NUM_END rem2 with
      | none => none
      | some rem3 => some (rem3, Token.num (to_u32 ds))

/-- Rust `str_token`: one or more characters that are neither `DATE_START` nor
`NUM_START`. -/
def str_token (inp : List Char) : Option (List Char × Token) :=
  match take_while1 (fun c => ¬(c = DATE_START ∨ c = NUM_START)) inp with
  | none => none
  | some (rem, t) => some (rem, Token.str t)

/-- Rust `token`: `alt((str_token, num, range))`. -/
def token (inp : List Char) : Option (List Char × Token) :=
  match str_token inp with
  | some r => some r
  | none =>
    match num inp with
    | some r => some r
    | none => range inp

/-- Ordering of `Option<i32>` as derived in Rust: `None` sorts first. -/
def cmpOptInt : Option Int → Option Int → Ordering
  | none, none => .eq
  | none, some _ => .lt
  | some _, none => .gt
  | some a, some b => compare a b

/-- Lexicographic comparison of character lists, mirroring Rust `&str`
ordering. -/
def cmpChars : List Char → List Char → Ordering
  | [], [] => .eq
  | [], _ :: _ => .lt
  | _ :: _, [] => .gt
  | a :: as, b :: bs => (compare a b).then (cmpChars as bs)

/-- Rust `Ord for CmpDate`: signed year first, then the remaining text. -/
def CmpDate.cmp (a b : CmpDate) : Ordering :=
  (cmpOptInt a.year b.year).then (cmpChars a.rest b.rest)

/-- Rust `Ord for CmpRange`: start date first; a range is compared with a single
date by its start, and two ranges tiebreak on the end date. -/
def CmpRange.cmp : CmpRange → CmpRange → Ordering
  | .single a, .single b => a.cmp b
  | .single a, .range b _c => a.cmp b
  | .range a _b, .single c => a.cmp c
  | .range a b, .range c d => (a.cmp c).then (b.cmp d)

/-- Rust `PartialOrd for Token`: tokens of the same kind compare (strings
case-insensitively via `UniCase`, modelled as ASCII lowercasing), tokens of
different kinds do not. -/
def pcmp : Token → Token → Option Ordering
  | .str a, .str b => some (cmpChars (a.map Char.toLower) (b.map Char.toLower))
  | .date a, .date b => some (a.cmp b)
  | .num a, .num b => some (compare a b)
  | _, _ => none

/-- The token stream of `TokenIterator`: repeatedly apply `token` until the
input is empty or fails to parse. Each successful `token` consumes at least
one character, so the input length bounds the number of tokens; the
recursion is fuelled by it. -/
def tokensFuel : Nat → List Char → List Token
  | 0, _ => []
  | _ + 1, [] => []
  | fuel + 1, l =>
    match token l with
    | none => []
    | some (rem, t) => t :: tokensFuel fuel rem

/-- All tokens of a string. -/
def tokens (l : List Char) : List Token :=
  tokensFuel l.length l

/-- The comparison loop of `natural_cmp`: walk the zipped token streams,
returning as soon as `o` has been set to a non-equal ordering by a
comparable pair. -/
def cmpLoop : List (Token × Token) → Ordering → Ordering
  | [], o => o
  | ab :: rest, o =>
    if o ≠ .eq then o
    else cmpLoop rest (match pcmp ab.1 ab.2 with
      | some c => c
      | none => o)

/-- Rust `natural_cmp`. -/
def natural_cmp (a b : List Char) : Ordering :=
  cmpLoop ((tokens a).zip (tokens b)) .eq

/-- Modelled from the spec's words: a token-by-token comparison in which the
first non-equal (comparable) pair of tokens decides the result; pairs of
different kinds have no comparison and are skipped, and leftover tokens of
the longer stream are ignored. -/
def specFirstDecides : List Token → List Token → Ordering
  | [], _ => .eq
  | _, [] => .eq
  | a :: as, b :: bs =>
    match pcmp a b with
    | some c => if c = .eq then specFirstDecides as bs else c
    | none => specFirstDecides as bs

end natural_sort

/-! ## Pandoc flip-flop output pass (citeproc/src/output/pandoc.rs) -/

/-- pandoc `Attr`. -/
structure Attr where
  identifier : String
  classes : List String
  kvs : List (String × String)
  deriving DecidableEq, Repr

/-- pandoc `QuoteType`. -/
inductive QuoteType where
  | singleQuote
  | doubleQuote
  deriving DecidableEq, Repr

mutual
/-- pandoc `Inline` (the constructors relevant to `flip_flop`; the
catch-all arm of `flip_flop` covers the rest the same way it covers `str`,
`code`, `span` and friends). -/
inductive Inline where
  | str (s : String)
  | emph (ils : List Inline)
  | strong (ils : List Inline)
  | strikeout (ils : List Inline)
  | superscript (ils : List Inline)
  | subscript (ils : List Inline)
  | smallCaps (ils : List Inline)
  | quoted (q : QuoteType) (ils : List Inline)
  | code (a : Attr) (s : String)
  | space
  | softBreak
  | lineBreak
  | link (a : Attr) (ils : List Inline) (target : String × String)
  | note (blocks : List Block)
  | span (a : Attr) (ils : List Inline)
  | rawInline (fmt : String) (s : String)

/-- pandoc `Block` (only `Para` matters to `flip_flop`). -/
inductive Block where
  | plain (ils : List Inline)
  | para (ils : List Inline)
end

/-- Rust `FlipFlopState`. -/
structure FlipFlopState where
  in_emph : Bool
  in_strong : Bool
  in_small_caps : Bool
  in_outer_quotes : Bool

/-- Rust `FlipFlopState::default()`. -/
def FlipFlopState.default : FlipFlopState :=
  { in_emph := false, in_strong := false, in_small_caps := false, in_outer_quotes := false }

/-- Rust `attr_class`. -/
def attr_class (class_ : String) : Attr :=
  { identifier := "", classes := [class_], kvs := [] }

mutual
/-- Rust `flip_flop`: `Some` when the inline was rewritten, `None` when the
caller should keep the original (the `_ => None` arm). -/
def flip_flop (state : FlipFlopState) : Inline → Option Inline
  | .note blocks =>
    match blocks with
    | .para ils :: _ => some (.note [.para (flip_flop_inlines state ils)])
    | _ => none
  | .emph ils =>
    let flop := { state with in_emph := !state.in_emph }
    if state.in_emph then some (.span (attr_class "csl-no-emph") (flip_flop_inlines flop ils))
    else some (.emph (flip_flop_inlines flop ils))
  | .strong ils =>
    let flop := { state with in_strong := !state.in_strong }
    if state.in_strong then some (.span (attr_class "csl-no-strong") (flip_flop_inlines flop ils))
    else some (.strong (flip_flop_inlines flop ils))
  | .smallCaps ils =>
    let flop := { state with in_small_caps := !state.in_small_caps }
    if state.in_small_caps then
      some (.span (attr_class "csl-no-smallcaps") (flip_flop_inlines flop ils))
    else some (.smallCaps (flip_flop_inlines flop ils))
  | .quoted _q ils =>
    let flop := { state with in_outer_quotes := !state.in_outer_quotes }
    if state.in_outer_quotes then some (.quoted .singleQuote (flip_flop_inlines flop ils))
    else some (.quoted .doubleQuote (flip_flop_inlines flop ils))
  | .strikeout ils => some (.strikeout (flip_flop_inlines state ils))
  | .superscript ils => some (.superscript (flip_flop_inlines state ils))
  | .subscript ils => some (.subscript (flip_flop_inlines state ils))
  | .link a ils t => some (.link a (flip_flop_inlines state ils) t)
  | _ => none

/-- Rust `flip_flop_inlines`: map `flip_flop` over the list, keeping originals
where it returns `None`. -/
def flip_flop_inlines (state : FlipFlopState) : List Inline → List Inline
  | [] => []
  | inl :: rest => ((flip_flop state inl).getD inl) :: flip_flop_inlines state rest
end

/-- Rust `Pandoc::output`: run the flip-flop pass from the default (all-false)
state. -/
def output (inter : List Inline) : List Inline :=
  flip_flop_inlines FlipFlopState.default inter

/-! ## Specification-side definitions used for refinement comparisons -/

/-- The piece a run `[first .. last]` collapses to: a lone entry stays a
`Single`, a longer run becomes a `Range` (entries of a run have strictly
increasing `cnum`, so `first = last` characterises the lone entry). -/
def mkPiece (first last : CnumIx) : RangePiece :=
  if first = last then .single first else .range first last

/-- Modelled from the amended claim about `collapse_ranges`: split the
input into maximal runs, starting a new run at every `force_single` entry
and at every entry whose `cnum` is not the successor of its predecessor's;
each run becomes one piece. `first`/`last` delimit the current run. -/
def specRuns (first last : CnumIx) : List CnumIx → List RangePiece
  | [] => [mkPiece first last]
  | y :: ys =>
    if y.force_single ∨ y.cnum ≠ last.cnum + 1 then mkPiece first last :: specRuns y y ys
    else specRuns first y ys

/-- Modelled from the amended claim: the run decomposition of the whole
input. -/
def specCollapse : List CnumIx → List RangePiece
  | [] => []
  | x :: xs => specRuns x x xs

/-- The cited-refs preordering of `sorted_refs`, at the list level: the ref
ids of the cites, restricted to existing references, each kept at its first
appearance. -/
def cited_first_appearance (all citeRefs : List String) : List String :=
  citeRefs.foldl (fun pre r => if all.contains r ∧ ¬ pre.contains r then pre ++ [r] else pre) []

/-- The intra-note index the loop of `set_cluster_order_inner` assigns to a
noted position with note `n`, given the loop's `this_note` register `tn` on
entry and the positions `pre` scanned since: the register's pending index
(when `n` is the register's note number) plus the number of scanned
positions carrying note `n`. -/
def countBefore (tn : Option (Nat × Nat)) (n : Nat) (pre : List ClusterPosition) : Nat :=
  (match tn with
   | some mc => if n = mc.1 then mc.2 else 0
   | none => 0) +
    (pre.filterMap ClusterPosition.note).count n

end Citeproc

namespace Citeproc

/-! # Theorems -/

/-! ## Helper lemmas: `set_cluster_order_inner` -/

/-- Unfolding equation of the loop for an in-text position. -/
theorem loop_cons_intext {oldIds : List Nat} {st : EngineState} {p : ClusterPosition}
    {rest : List ClusterPosition} {intext : Nat} {tn : Option (Nat × Nat)} {acc : List Nat}
    {log : List (Nat × Option ClusterNumber)} (hp : p.note = none) :
    setClusterOrderLoop oldIds st (p :: rest) intext tn acc log =
      setClusterOrderLoop oldIds (setNoteNumber st p.id (some (.inText intext)))
        rest (intext + 1) tn (acc ++ [p.id]) log := by
  simp only [setClusterOrderLoop, hp]

/-- Unfolding equation of the loop for the first noted position. -/
theorem loop_cons_first_note {oldIds : List Nat} {st : EngineState} {p : ClusterPosition}
    {rest : List ClusterPosition} {intext : Nat} {acc : List Nat}
    {log : List (Nat × Option ClusterNumber)} {nn : Nat} (hp : p.note = some nn) :
    setClusterOrderLoop oldIds st (p :: rest) intext none acc log =
      setClusterOrderLoop oldIds (setNoteNumber st p.id (some (.note (.multi nn 0))))
        rest intext (some (nn, 1)) (acc ++ [p.id]) log := by
  simp only [setClusterOrderLoop, hp]

/-- Unfolding equation of the loop for a noted position after the first. -/
theorem loop_cons_note {oldIds : List Nat} {st : EngineState} {p : ClusterPosition}
    {rest : List ClusterPosition} {intext : Nat} {m c : Nat} {acc : List Nat}
    {log : List (Nat × Option ClusterNumber)} {nn : Nat} (hp : p.note = some nn) :
    setClusterOrderLoop oldIds st (p :: rest) intext (some (m, c)) acc log =
      if nn < m then (some (.nonMonotonicNoteNumber nn), st, log)
      else if nn = m then
        setClusterOrderLoop oldIds (setNoteNumber st p.id (some (.note (.multi m c))))
          rest intext (some (m, c + 1)) (acc ++ [p.id])
          (if oldIds.contains p.id then log ++ [(p.id, st.note_numbers p.id)] else log)
      else
        setClusterOrderLoop oldIds (setNoteNumber st p.id (some (.note (.multi nn 0))))
          rest intext (some (nn, 1)) (acc ++ [p.id])
          (if oldIds.contains p.id then log ++ [(p.id, st.note_numbers p.id)] else log) := by
  by_cases hlt : nn < m
  · simp only [setClusterOrderLoop, hp, hlt, if_true, reduceIte]
  · by_cases heq : nn = m <;>
      simp only [setClusterOrderLoop, hp, hlt, heq, if_true, if_false, ite_true, ite_false,
        reduceIte]

/-- The loop never touches the note number of a cluster id that does not
occur among the positions (each step only sets ids drawn from the list). -/
theorem loop_preserves_other (oldIds : List Nat) (ps : List ClusterPosition) :
    ∀ (st : EngineState) (intext : Nat) (tn : Option (Nat × Nat)) (acc : List Nat)
      (log : List (Nat × Option ClusterNumber)) (id : Nat),
      id ∉ ps.map ClusterPosition.id →
      (setClusterOrderLoop oldIds st ps intext tn acc log).2.1.note_numbers id =
        st.note_numbers id := by
  induction ps with
  | nil => intro st intext tn acc log id _; rfl
  | cons p rest ih =>
    intro st intext tn acc log id hid
    have hne : ¬ id = p.id := fun h => hid (by simp [h])
    have hrest : id ∉ rest.map ClusterPosition.id := fun h => hid (by simp [h])
    have hset : ∀ v, (setNoteNumber st p.id v).note_numbers id = st.note_numbers id := by
      intro v; simp [setNoteNumber, hne]
    rcases hp : p.note with _ | nn
    · rw [loop_cons_intext hp, ih _ _ _ _ _ _ hrest, hset]
    · rcases tn with _ | ⟨m, c⟩
      · rw [loop_cons_first_note hp, ih _ _ _ _ _ _ hrest, hset]
      · rw [loop_cons_note hp]
        by_cases hlt : nn < m
        · rw [if_pos hlt]
        · rw [if_neg hlt]
          by_cases heq : nn = m
          · rw [if_pos heq, ih _ _ _ _ _ _ hrest, hset]
          · rw [if_neg heq, ih _ _ _ _ _ _ hrest, hset]

/-- On an error return, the loop has not yet replaced `cluster_ids` (that
assignment only happens after the whole list is scanned). -/
theorem loop_err_cluster_ids (oldIds : List Nat) (ps : List ClusterPosition) :
    ∀ (st : EngineState) (intext : Nat) (tn : Option (Nat × Nat)) (acc : List Nat)
      (log : List (Nat × Option ClusterNumber)),
      (setClusterOrderLoop oldIds st ps intext tn acc log).1.isSome →
      (setClusterOrderLoop oldIds st ps intext tn acc log).2.1.cluster_ids =
        st.cluster_ids := by
  induction ps with
  | nil => intro st intext tn acc log h; simp [setClusterOrderLoop] at h
  | cons p rest ih =>
    intro st intext tn acc log h
    have hset : ∀ id v, (setNoteNumber st id v).cluster_ids = st.cluster_ids :=
      fun _ _ => rfl
    rcases hp : p.note with _ | nn
    · rw [loop_cons_intext hp] at h ⊢
      rw [ih _ _ _ _ _ h, hset]
    · rcases tn with _ | ⟨m, c⟩
      · rw [loop_cons_first_note hp] at h ⊢
        rw [ih _ _ _ _ _ h, hset]
      · rw [loop_cons_note hp] at h ⊢
        by_cases hlt : nn < m
        · rw [if_pos hlt]
        · rw [if_neg hlt] at h ⊢
          by_cases heq : nn = m
          · rw [if_pos heq] at h ⊢
            rw [ih _ _ _ _ _ h, hset]
          · rw [if_neg heq] at h ⊢
            rw [ih _ _ _ _ _ h, hset]

/-- A `Chain'` on a cons is the same as `Chain` from the head. -/
theorem chain'_cons_self {a : Nat} {l : List Nat} :
    List.Chain' (· ≤ ·) (a :: l) ↔ List.Chain (· ≤ ·) a l :=
  Iff.rfl

/-- The loop fails exactly when the note numbers are not non-decreasing;
the optional `tn` head contributes the last note number seen so far. -/
theorem loop_err_iff (oldIds : List Nat) (ps : List ClusterPosition) :
    ∀ (st : EngineState) (intext : Nat) (tn : Option (Nat × Nat)) (acc : List Nat)
      (log : List (Nat × Option ClusterNumber)),
      ((setClusterOrderLoop oldIds st ps intext tn acc log).1.isSome ↔
        ¬ List.Chain' (· ≤ ·)
          ((tn.map Prod.fst).toList ++ ps.filterMap ClusterPosition.note)) := by
  induction ps with
  | nil =>
    intro st intext tn acc log
    rcases tn with _ | ⟨m, c⟩ <;> simp [setClusterOrderLoop]
  | cons p rest ih =>
    intro st intext tn acc log
    rcases hp : p.note with _ | nn
    · rw [loop_cons_intext hp, List.filterMap_cons_none hp]
      exact ih _ _ _ _ _
    · rw [List.filterMap_cons_some hp]
      rcases tn with _ | ⟨m, c⟩
      · rw [loop_cons_first_note hp, ih _ _ (some (nn, 1)) _ _]
        simp [chain'_cons_self]
      · rw [loop_cons_note hp]
        simp only [Option.map_some', Option.toList_some, List.singleton_append,
          chain'_cons_self, List.chain_cons]
        by_cases hlt : nn < m
        · rw [if_pos hlt]
          simp only [Option.isSome_some, true_iff]
          intro hcon
          omega
        · rw [if_neg hlt]
          by_cases heq : nn = m
          · rw [if_pos heq, ih _ _ (some (m, c + 1)) _ _]
            subst heq
            simp [chain'_cons_self]
          · rw [if_neg heq, ih _ _ (some (nn, 1)) _ _]
            have hm : m ≤ nn := by omega
            simp [chain'_cons_self, hm]

/-- A `≤`-chain bounds every member of the list from below by its head. -/
theorem chain_le_of_mem {a b : Nat} :
    ∀ {l : List Nat}, List.Chain (· ≤ ·) a l → b ∈ l → a ≤ b := by
  intro l
  induction l generalizing a with
  | nil => intro _ h; simp at h
  | cons x xs ih =>
    intro hch hmem
    rw [List.chain_cons] at hch
    rcases List.mem_cons.mp hmem with rfl | hmem'
    · exact hch.1
    · exact le_trans hch.1 (ih hch.2 hmem')

/-- Any error returned by the loop is `NonMonotonicNoteNumber n` where `n`
occurs among the notes and is smaller than an earlier note (or than the
`this_note` register the loop started from). -/
theorem loop_err_shape (oldIds : List Nat) (ps : List ClusterPosition) :
    ∀ (st : EngineState) (intext : Nat) (tn : Option (Nat × Nat)) (acc : List Nat)
      (log : List (Nat × Option ClusterNumber)) (e : ReorderingError),
      (setClusterOrderLoop oldIds st ps intext tn acc log).1 = some e →
      ∃ n, e = .nonMonotonicNoteNumber n ∧
        ∃ l1 l2, ps.filterMap ClusterPosition.note = l1 ++ n :: l2 ∧
          ((∃ mc : Nat × Nat, tn = some mc ∧ n < mc.1) ∨ ∃ x ∈ l1, n < x) := by
  induction ps with
  | nil => intro st intext tn acc log e h; simp [setClusterOrderLoop] at h
  | cons p rest ih =>
    intro st intext tn acc log e h
    rcases hp : p.note with _ | nn
    · rw [loop_cons_intext hp] at h
      obtain ⟨n, he, l1, l2, heq, hdisj⟩ := ih _ _ _ _ _ _ h
      exact ⟨n, he, l1, l2, by rw [List.filterMap_cons_none hp, heq], hdisj⟩
    · rcases tn with _ | ⟨m, c⟩
      · rw [loop_cons_first_note hp] at h
        obtain ⟨n, he, l1, l2, heq, hdisj⟩ := ih _ _ _ _ _ _ h
        refine ⟨n, he, nn :: l1, l2, by rw [List.filterMap_cons_some hp, heq]; rfl, Or.inr ?_⟩
        rcases hdisj with ⟨mc, hmc, hlt⟩ | ⟨x, hx, hlt⟩
        · cases hmc
          exact ⟨nn, by simp, hlt⟩
        · exact ⟨x, by simp [hx], hlt⟩
      · rw [loop_cons_note hp] at h
        by_cases hlt : nn < m
        · rw [if_pos hlt] at h
          cases h
          exact ⟨nn, rfl, [], rest.filterMap ClusterPosition.note,
            by simp [List.filterMap_cons_some hp], Or.inl ⟨(m, c), rfl, hlt⟩⟩
        · rw [if_neg hlt] at h
          by_cases heq : nn = m
          · rw [if_pos heq] at h
            obtain ⟨n, he, l1, l2, hleq, hdisj⟩ := ih _ _ _ _ _ _ h
            refine ⟨n, he, nn :: l1, l2,
              by rw [List.filterMap_cons_some hp, hleq]; rfl, Or.inr ?_⟩
            rcases hdisj with ⟨mc, hmc, hmlt⟩ | ⟨x, hx, hxlt⟩
            · cases hmc
              exact ⟨nn, by simp, by omega⟩
            · exact ⟨x, by simp [hx], hxlt⟩
          · rw [if_neg heq] at h
            obtain ⟨n, he, l1, l2, hleq, hdisj⟩ := ih _ _ _ _ _ _ h
            refine ⟨n, he, nn :: l1, l2,
              by rw [List.filterMap_cons_some hp, hleq]; rfl, Or.inr ?_⟩
            rcases hdisj with ⟨mc, hmc, hmlt⟩ | ⟨x, hx, hxlt⟩
            · cases hmc
              exact ⟨nn, by simp, hmlt⟩
            · exact ⟨x, by simp [hx], hxlt⟩

/-- On a successful scan with pairwise-distinct cluster ids, every noted
position ends up with `Note (Multi n i)` where `i` counts the positions
with the same note number scanned before it (plus the pending register
index). -/
theorem loop_assign (oldIds : List Nat) (ps : List ClusterPosition) :
    ∀ (st : EngineState) (intext : Nat) (tn : Option (Nat × Nat)) (acc : List Nat)
      (log : List (Nat × Option ClusterNumber)),
      (ps.map ClusterPosition.id).Nodup →
      (setClusterOrderLoop oldIds st ps intext tn acc log).1 = none →
      ∀ (j : Nat) (hj : j < ps.length) (n : Nat), ps[j].note = some n →
        (setClusterOrderLoop oldIds st ps intext tn acc log).2.1.note_numbers ps[j].id =
          some (.note (.multi n (countBefore tn n (ps.take j)))) := by
  induction ps with
  | nil => intro st intext tn acc log _ _ j hj n _; simp at hj
  | cons p rest ih =>
    intro st intext tn acc log hnodup hsucc j hj n hn
    rw [List.map_cons, List.nodup_cons] at hnodup
    obtain ⟨hpid, hndrest⟩ := hnodup
    rcases hp : p.note with _ | nn
    · rw [loop_cons_intext hp] at hsucc ⊢
      cases j with
      | zero =>
        rw [List.getElem_cons_zero] at hn
        rw [hp] at hn
        cases hn
      | succ j' =>
        have hj' : j' < rest.length := by simpa using hj
        have hn' : rest[j'].note = some n := by simpa using hn
        have hres := ih _ _ _ _ _ hndrest hsucc j' hj' n hn'
        rw [List.getElem_cons_succ]
        rw [hres, List.take_succ_cons]
        simp [countBefore, List.filterMap_cons_none hp]
    · rcases tn with _ | ⟨m, c⟩
      · rw [loop_cons_first_note hp] at hsucc ⊢
        cases j with
        | zero =>
          rw [List.getElem_cons_zero] at hn ⊢
          rw [hp] at hn
          cases hn
          rw [loop_preserves_other oldIds rest _ _ _ _ _ p.id hpid]
          simp [setNoteNumber, countBefore]
        | succ j' =>
          have hj' : j' < rest.length := by simpa using hj
          have hn' : rest[j'].note = some n := by simpa using hn
          have hres := ih _ _ _ _ _ hndrest hsucc j' hj' n hn'
          rw [List.getElem_cons_succ, hres, List.take_succ_cons]
          congr 2
          simp only [countBefore, List.filterMap_cons_some hp, List.count_cons]
          by_cases hnn : n = nn
          · subst hnn
            simp
            omega
          · have : ¬ nn = n := fun hcon => hnn hcon.symm
            simp [hnn, this]
      · rw [loop_cons_note hp] at hsucc ⊢
        by_cases hlt : nn < m
        · rw [if_pos hlt] at hsucc
          cases hsucc
        · rw [if_neg hlt] at hsucc ⊢
          by_cases heq : nn = m
          · rw [if_pos heq] at hsucc ⊢
            cases j with
            | zero =>
              rw [List.getElem_cons_zero] at hn ⊢
              rw [hp] at hn
              cases hn
              rw [loop_preserves_other oldIds rest _ _ _ _ _ p.id hpid]
              subst heq
              simp [setNoteNumber, countBefore]
            | succ j' =>
              have hj' : j' < rest.length := by simpa using hj
              have hn' : rest[j'].note = some n := by simpa using hn
              have hres := ih _ _ _ _ _ hndrest hsucc j' hj' n hn'
              rw [List.getElem_cons_succ, hres, List.take_succ_cons]
              congr 2
              subst heq
              simp only [countBefore, List.filterMap_cons_some hp, List.count_cons]
              by_cases hnn : n = nn
              · subst hnn
                simp
                omega
              · have : ¬ nn = n := fun hcon => hnn hcon.symm
                simp [hnn, this]
          · rw [if_neg heq] at hsucc ⊢
            have hmn : m < nn := by omega
            cases j with
            | zero =>
              rw [List.getElem_cons_zero] at hn ⊢
              rw [hp] at hn
              cases hn
              rw [loop_preserves_other oldIds rest _ _ _ _ _ p.id hpid]
              simp [setNoteNumber, countBefore, heq]
            | succ j' =>
              have hj' : j' < rest.length := by simpa using hj
              have hn' : rest[j'].note = some n := by simpa using hn
              have hres := ih _ _ _ _ _ hndrest hsucc j' hj' n hn'
              rw [List.getElem_cons_succ, hres, List.take_succ_cons]
              -- a later note `n` must be at least `nn`, hence cannot equal `m`
              have hchain : List.Chain (· ≤ ·) nn (rest.filterMap ClusterPosition.note) := by
                have hiff := loop_err_iff oldIds rest
                  (setNoteNumber st p.id (some (.note (.multi nn 0)))) intext
                  (some (nn, 1)) (acc ++ [p.id])
                  (if oldIds.contains p.id then log ++ [(p.id, st.note_numbers p.id)] else log)
                rw [hsucc] at hiff
                simp only [Option.isSome_none, Bool.false_eq_true, false_iff, not_not] at hiff
                simpa [chain'_cons_self] using hiff
              have hnmem : n ∈ rest.filterMap ClusterPosition.note :=
                List.mem_filterMap.mpr ⟨rest[j'], List.getElem_mem hj', hn'⟩
              have hnn_le : nn ≤ n := chain_le_of_mem hchain hnmem
              have hnm : ¬ n = m := by omega
              congr 2
              simp only [countBefore, List.filterMap_cons_some hp, List.count_cons]
              by_cases hnn : n = nn
              · subst hnn
                simp [hnm]
                omega
              · have : ¬ nn = n := fun hcon => hnn hcon.symm
                simp [hnn, hnm, this]

/-! ## Helper lemmas: `collapse_ranges` -/

theorem attempt_append_isSome (wip : RangePiece) (n : CnumIx)
    (h : n.force_single = true ∨ 1 ≤ n.cnum) : (attempt_append wip n).isSome := by
  by_cases hf : n.force_single
  · simp [attempt_append, hf]
  · have h1 : 1 ≤ n.cnum := by
      rcases h with h | h
      · exact absurd h hf
      · exact h
    have h0 : ¬ n.cnum = 0 := by omega
    cases wip with
    | range a b =>
      by_cases hc : b.cnum = n.cnum - 1 <;> simp [attempt_append, hf, h0, hc]
    | single a =>
      by_cases hc : a.cnum = n.cnum - 1 <;> simp [attempt_append, hf, h0, hc]

theorem collapseLoop_isSome (ns : List CnumIx) :
    ∀ (wip : RangePiece) (pieces : List RangePiece),
      (∀ e ∈ ns, e.force_single = true ∨ 1 ≤ e.cnum) →
      (collapseLoop ns wip pieces).isSome := by
  induction ns with
  | nil => intro wip pieces _; simp [collapseLoop]
  | cons n ns ih =>
    intro wip pieces h
    have hs := attempt_append_isSome wip n (h n (by simp))
    have hrest : ∀ e ∈ ns, e.force_single = true ∨ 1 ≤ e.cnum :=
      fun e he => h e (by simp [he])
    rcases heq : attempt_append wip n with _ | ⟨wip', emit⟩
    · rw [heq] at hs; simp at hs
    · cases emit with
      | none => simpa [collapseLoop, heq] using ih wip' pieces hrest
      | some emit => simpa [collapseLoop, heq] using ih wip' (pieces ++ [emit]) hrest

theorem collapseLoop_spec (ns : List CnumIx) :
    ∀ (f l : CnumIx) (pieces : List RangePiece),
      (f = l ∨ f.cnum < l.cnum) →
      (∀ e ∈ ns, e.force_single = true ∨ 1 ≤ e.cnum) →
      collapseLoop ns (mkPiece f l) pieces = some (pieces ++ specRuns f l ns) := by
  induction ns with
  | nil => intro f l pieces _ _; simp [collapseLoop, specRuns]
  | cons y ys ih =>
    intro f l pieces hinv h
    have hrest : ∀ e ∈ ys, e.force_single = true ∨ 1 ≤ e.cnum :=
      fun e he => h e (by simp [he])
    by_cases hf : y.force_single
    · -- a forced entry always emits the previous piece and restarts
      have happ : attempt_append (mkPiece f l) y = some (.single y, some (mkPiece f l)) := by
        simp [attempt_append, hf]
      have : RangePiece.single y = mkPiece y y := by simp [mkPiece]
      rw [collapseLoop, happ]
      simp only [this]
      rw [ih y y (pieces ++ [mkPiece f l]) (Or.inl rfl) hrest]
      simp [specRuns, hf]
    · have hy : 1 ≤ y.cnum := by
        rcases h y (by simp) with h1 | h1
        · exact absurd h1 hf
        · exact h1
      have h0 : ¬ y.cnum = 0 := by omega
      by_cases hcons : y.cnum = l.cnum + 1
      · -- consecutive: the run continues
        have hl : l.cnum = y.cnum - 1 := by omega
        have hfl : f.cnum < y.cnum := by
          rcases hinv with rfl | hlt <;> omega
        have hne : ¬ f = y := fun hfy => by rw [hfy] at hfl; omega
        have happ : attempt_append (mkPiece f l) y = some (.range f y, none) := by
          rcases hinv with rfl | hlt
          · simp [attempt_append, hf, h0, mkPiece, hl]
          · have : ¬ f = l := fun hfy => by rw [hfy] at hlt; omega
            simp [attempt_append, hf, h0, mkPiece, this, hl]
        have hmk : RangePiece.range f y = mkPiece f y := by simp [mkPiece, hne]
        rw [collapseLoop, happ]
        simp only [hmk]
        rw [ih f y pieces (Or.inr hfl) hrest]
        simp [specRuns, hf, hcons]
      · -- not consecutive: emit and restart
        have hl : ¬ l.cnum = y.cnum - 1 := by omega
        have happ : attempt_append (mkPiece f l) y = some (.single y, some (mkPiece f l)) := by
          rcases hinv with rfl | hlt
          · simp [attempt_append, hf, h0, mkPiece, hl]
          · have : ¬ f = l := fun hfy => by rw [hfy] at hlt; omega
            simp [attempt_append, hf, h0, mkPiece, this, hl]
        have hmk : RangePiece.single y = mkPiece y y := by simp [mkPiece]
        rw [collapseLoop, happ]
        simp only [hmk]
        rw [ih y y (pieces ++ [mkPiece f l]) (Or.inl rfl) hrest]
        simp [specRuns, hf, hcons]

/-! ## C1 -/

/-- C1 counterexample: `set_cluster_order` fails with
`NonMonotonicNoteNumber 3` on positions `[{id 1, note 5}, {id 2, note 3}]`,
yet cluster 1's note number has been mutated to `Note (Multi 5 0)` (its
pre-call value was `none`): the partially applied note-number mutations are
not rolled back. -/
theorem c1_error_mutates_note_numbers :
    (set_cluster_order
        { cluster_ids := [1, 2], note_numbers := fun _ => none,
          cluster_cites := fun _ => [], preview_id := 0 }
        [⟨1, some 5⟩, ⟨2, some 3⟩]).1 = some (.nonMonotonicNoteNumber 3) ∧
    (set_cluster_order
        { cluster_ids := [1, 2], note_numbers := fun _ => none,
          cluster_cites := fun _ => [], preview_id := 0 }
        [⟨1, some 5⟩, ⟨2, some 3⟩]).2.note_numbers 1 = some (.note (.multi 5 0)) ∧
    ({ cluster_ids := [1, 2], note_numbers := fun _ => none,
       cluster_cites := fun _ => [], preview_id := 0 } : EngineState).note_numbers 1
      = none := by
  refine ⟨rfl, rfl, rfl⟩

/-- C1 (amended): if `set_cluster_order` returns an error, `cluster_ids()`
equals its pre-call value (the `set_cluster_ids` write only happens after a
full successful scan), and the note number of every cluster id that does not
occur among the supplied positions is unchanged; but note numbers of
clusters scanned before the failing position may remain mutated (the code's
own comment: "May error without having set_cluster_ids, but with some
set_cluster_note_number-s executed"). -/
theorem c1_error_preserves_cluster_ids (st : EngineState) (ps : List ClusterPosition)
    (h : (set_cluster_order st ps).1.isSome) :
    (set_cluster_order st ps).2.cluster_ids = st.cluster_ids ∧
    ∀ id, id ∉ ps.map ClusterPosition.id →
      (set_cluster_order st ps).2.note_numbers id = st.note_numbers id := by
  constructor
  · exact loop_err_cluster_ids st.cluster_ids ps st 1 none [] [] h
  · intro id hid
    exact loop_preserves_other st.cluster_ids ps st 1 none [] [] id hid

/-- C1 witness: the amended statement evaluated at a failing call. -/
theorem c1_error_preserves_cluster_ids_witness :
    (set_cluster_order
        { cluster_ids := [7], note_numbers := fun _ => none,
          cluster_cites := fun _ => [], preview_id := 0 }
        [⟨7, some 4⟩, ⟨8, some 2⟩]).1.isSome ∧
    (set_cluster_order
        { cluster_ids := [7], note_numbers := fun _ => none,
          cluster_cites := fun _ => [], preview_id := 0 }
        [⟨7, some 4⟩, ⟨8, some 2⟩]).2.cluster_ids = [7] :=
  ⟨rfl,
    (c1_error_preserves_cluster_ids
      { cluster_ids := [7], note_numbers := fun _ => none,
        cluster_cites := fun _ => [], preview_id := 0 }
      [⟨7, some 4⟩, ⟨8, some 2⟩] rfl).1⟩

/-! ## C2 -/

/-- C2 (code bug): a `MarkWithZero` preview that reorders two in-text
clusters returns `Ok`, restores `cluster_ids`, but does **not** restore the
in-text cluster positions: the `mods` rollback log inside
`set_cluster_order_inner` is only written in the noted-position branch
(after the first note), never for in-text positions or the first noted
position, so `restore_cluster_state` has nothing to put back. Document
`[1 ↦ InText 1, 2 ↦ InText 2]`, preview order `[2, preview, 1]`: after the
preview returns, cluster 1 is at `InText 3` and cluster 2 at `InText 1`. -/
theorem c2_preview_corrupts_intext_positions :
    (preview_citation_cluster
        { cluster_ids := [1, 2],
          note_numbers := fun i => if i = 1 then some (.inText 1)
            else if i = 2 then some (.inText 2) else none,
          cluster_cites := fun _ => [], preview_id := 0 }
        [9] (.markWithZero [⟨2, none⟩, ⟨0, none⟩, ⟨1, none⟩])).1 = .ok () ∧
    (preview_citation_cluster
        { cluster_ids := [1, 2],
          note_numbers := fun i => if i = 1 then some (.inText 1)
            else if i = 2 then some (.inText 2) else none,
          cluster_cites := fun _ => [], preview_id := 0 }
        [9] (.markWithZero [⟨2, none⟩, ⟨0, none⟩, ⟨1, none⟩])).2.cluster_ids = [1, 2] ∧
    (preview_citation_cluster
        { cluster_ids := [1, 2],
          note_numbers := fun i => if i = 1 then some (.inText 1)
            else if i = 2 then some (.inText 2) else none,
          cluster_cites := fun _ => [], preview_id := 0 }
        [9] (.markWithZero [⟨2, none⟩, ⟨0, none⟩, ⟨1, none⟩])).2.note_numbers 1
      = some (.inText 3) ∧
    (preview_citation_cluster
        { cluster_ids := [1, 2],
          note_numbers := fun i => if i = 1 then some (.inText 1)
            else if i = 2 then some (.inText 2) else none,
          cluster_cites := fun _ => [], preview_id := 0 }
        [9] (.markWithZero [⟨2, none⟩, ⟨0, none⟩, ⟨1, none⟩])).2.note_numbers 2
      = some (.inText 1) ∧
    (preview_citation_cluster
        { cluster_ids := [1, 2],
          note_numbers := fun i => if i = 1 then some (.inText 1)
            else if i = 2 then some (.inText 2) else none,
          cluster_cites := fun _ => [], preview_id := 0 }
        [9] (.markWithZero [⟨2, none⟩, ⟨0, none⟩, ⟨1, none⟩])).2.note_numbers 0 = none := by
  refine ⟨rfl, rfl, rfl, rfl, rfl⟩

/-! ## C5 -/

/-- C5: `set_cluster_order` errors exactly when some position carries a
note number `n` strictly smaller than the note number of an earlier noted
position, the error is always `NonMonotonicNoteNumber`, and on success
every noted position with note `n` is assigned
`Note (Multi n i)` where `i` counts the earlier positions carrying the same
note number (0 for the first, increasing by one per repeat). The assignment
clause assumes pairwise-distinct cluster ids, since a repeated id keeps
only its last assignment in the store. -/
theorem c5_cluster_order_notes (st : EngineState) (ps : List ClusterPosition) :
    ((set_cluster_order st ps).1.isSome ↔
      ∃ n l1 l2, ps.filterMap ClusterPosition.note = l1 ++ n :: l2 ∧ ∃ x ∈ l1, n < x) ∧
    (∀ e, (set_cluster_order st ps).1 = some e →
      ∃ n, e = .nonMonotonicNoteNumber n ∧
        ∃ l1 l2, ps.filterMap ClusterPosition.note = l1 ++ n :: l2 ∧ ∃ x ∈ l1, n < x) ∧
    ((ps.map ClusterPosition.id).Nodup → (set_cluster_order st ps).1 = none →
      ∀ (j : Nat) (hj : j < ps.length) (n : Nat), ps[j].note = some n →
        (set_cluster_order st ps).2.note_numbers ps[j].id =
          some (.note (.multi n (((ps.take j).filterMap ClusterPosition.note).count n)))) := by
  have hfst : (set_cluster_order st ps).1 =
      (setClusterOrderLoop st.cluster_ids st ps 1 none [] []).1 := rfl
  have hsnd : (set_cluster_order st ps).2 =
      (setClusterOrderLoop st.cluster_ids st ps 1 none [] []).2.1 := rfl
  refine ⟨⟨?_, ?_⟩, ?_, ?_⟩
  · intro h
    rw [hfst] at h
    obtain ⟨e, he⟩ := Option.isSome_iff_exists.mp h
    obtain ⟨n, _, l1, l2, heq, hdisj⟩ :=
      loop_err_shape st.cluster_ids ps st 1 none [] [] e he
    rcases hdisj with ⟨mc, hmc, _⟩ | hx
    · simp at hmc
    · exact ⟨n, l1, l2, heq, hx⟩
  · rintro ⟨n, l1, l2, heq, x, hx, hlt⟩
    rw [hfst, loop_err_iff st.cluster_ids ps st 1 none [] []]
    simp only [Option.map_none', Option.toList_none, List.nil_append]
    intro hchain
    rw [List.chain'_iff_pairwise, heq, List.pairwise_append] at hchain
    have := hchain.2.2 x hx n (by simp)
    omega
  · intro e he
    rw [hfst] at he
    obtain ⟨n, hne, l1, l2, heq, hdisj⟩ :=
      loop_err_shape st.cluster_ids ps st 1 none [] [] e he
    rcases hdisj with ⟨mc, hmc, _⟩ | hx
    · simp at hmc
    · exact ⟨n, hne, l1, l2, heq, hx⟩
  · intro hnodup hsucc j hj n hn
    rw [hfst] at hsucc
    have hres := loop_assign st.cluster_ids ps st 1 none [] [] hnodup hsucc j hj n hn
    rw [hsnd, hres]
    simp [countBefore]

/-- C5 witness: a run with notes 1, 1, 2 succeeds, and the repeated note 1
gets intra-note index 1 (`Multi 1 1`) on the second position. -/
theorem c5_cluster_order_notes_witness :
    (set_cluster_order
        { cluster_ids := [], note_numbers := fun _ => none,
          cluster_cites := fun _ => [], preview_id := 0 }
        [⟨1, some 1⟩, ⟨2, some 1⟩, ⟨3, some 2⟩]).2.note_numbers 2
      = some (.note (.multi 1 1)) := by
  have h := (c5_cluster_order_notes
      { cluster_ids := [], note_numbers := fun _ => none,
        cluster_cites := fun _ => [], preview_id := 0 }
      [⟨1, some 1⟩, ⟨2, some 1⟩, ⟨3, some 2⟩]).2.2 (by decide) rfl 1 (by decide) 1 rfl
  exact h

/-! ## C4 -/

/-- C4 counterexample: an entry with `force_single` (a cite with a locator)
that begins the input is not emitted as a standalone `Single`; the following
consecutive entry is appended to it, yielding a `Range` that starts at the
forced entry. -/
theorem c4_force_single_absorbed :
    collapse_ranges [⟨1, 0, true⟩, ⟨2, 1, false⟩]
      = some [RangePiece.range ⟨1, 0, true⟩ ⟨2, 1, false⟩] ∧
    RangePiece.single ⟨1, 0, true⟩ ∉ [RangePiece.range ⟨1, 0, true⟩ ⟨2, 1, false⟩] := by
  decide

/-- C4 (amended): for entries with positive citation numbers,
`collapse_ranges` splits the input into maximal runs — a new run starts at
every `force_single` entry and at every non-consecutive `cnum` — and maps
lone entries to `Single` and longer runs to `Range` pieces; a forced entry
terminates the preceding run but may itself become the start of the next
`Range`. -/
theorem c4_collapse_ranges_runs (nums : List CnumIx)
    (h : ∀ e ∈ nums.drop 1, e.force_single = true ∨ 1 ≤ e.cnum) :
    collapse_ranges nums = some (specCollapse nums) := by
  cases nums with
  | nil => rfl
  | cons x xs =>
    have : RangePiece.single x = mkPiece x x := by simp [mkPiece]
    rw [collapse_ranges, this, collapseLoop_spec xs x x [] (Or.inl rfl) (by simpa using h)]
    rfl

/-- C4 witness: the claim's literal example, cnums 1,2,3,5 with no locators,
collapses to `[Range 1–3, Single 5]`. -/
theorem c4_collapse_ranges_runs_witness :
    collapse_ranges [⟨1, 1, false⟩, ⟨2, 2, false⟩, ⟨3, 3, false⟩, ⟨5, 4, false⟩]
      = some [RangePiece.range ⟨1, 1, false⟩ ⟨3, 3, false⟩, RangePiece.single ⟨5, 4, false⟩] :=
  (c4_collapse_ranges_runs _ (by decide)).trans (by decide)

/-! ## C10 -/

/-- C10 counterexample: an entry with citation number 0 following another
entry makes `nxt.cnum - 1` underflow (`collapse_ranges` does not return
normally; in a debug build the subtraction panics). -/
theorem c10_underflow_at_zero :
    collapse_ranges [⟨1, 0, false⟩, ⟨0, 1, false⟩] = none := by
  decide

/-- C10 (amended): `collapse_ranges` returns normally on every list in
which each entry after the first either is marked `force_single` or has a
positive citation number — in particular on everything the collapsing pass
feeds it, since citation numbers are 1-based — but an entry with `cnum = 0`
(and no locator) following another entry underflows. -/
theorem c10_collapse_ranges_total (nums : List CnumIx)
    (h : ∀ e ∈ nums.drop 1, e.force_single = true ∨ 1 ≤ e.cnum) :
    (collapse_ranges nums).isSome := by
  cases nums with
  | nil => simp [collapse_ranges]
  | cons x xs =>
    rw [collapse_ranges]
    exact collapseLoop_isSome xs (.single x) [] (by simpa using h)

/-- C10 witness: totality at a concrete list with positive citation
numbers. -/
theorem c10_collapse_ranges_total_witness :
    (collapse_ranges [⟨2, 0, false⟩, ⟨7, 1, false⟩, ⟨8, 2, true⟩]).isSome :=
  c10_collapse_ranges_total _ (by decide)

/-! ## Helper lemmas: `sorted_refs` -/

/-- Invariant of the preordering accumulator: no duplicates, and the
`citation_numbers` map is defined exactly on the pushed refs. -/
def AccInv (acc : PreorderAcc) : Prop :=
  acc.preordered.Nodup ∧ ∀ s, acc.citation_numbers s = none ↔ s ∉ acc.preordered

theorem citedStep_pos {all : List String} {acc : PreorderAcc} {r : String}
    (hc : (all.contains r : Prop) ∧ acc.citation_numbers r = none) :
    citedStep all acc r =
      { preordered := acc.preordered ++ [r]
        citation_numbers := fun s => if s = r then some acc.i else acc.citation_numbers s
        i := acc.i + 1 } := by
  unfold citedStep
  exact if_pos hc

theorem citedStep_neg {all : List String} {acc : PreorderAcc} {r : String}
    (hc : ¬((all.contains r : Prop) ∧ acc.citation_numbers r = none)) :
    citedStep all acc r = acc := by
  unfold citedStep
  exact if_neg hc

theorem citedStep_inv {all : List String} {acc : PreorderAcc} {r : String}
    (h : AccInv acc) : AccInv (citedStep all acc r) := by
  obtain ⟨hnd, hmap⟩ := h
  by_cases hc : (all.contains r : Prop) ∧ acc.citation_numbers r = none
  · have hr : r ∉ acc.preordered := (hmap r).mp hc.2
    rw [citedStep_pos hc]
    constructor
    · rw [List.nodup_append]
      refine ⟨hnd, List.nodup_singleton r, ?_⟩
      intro a ha har
      rw [List.mem_singleton] at har
      exact hr (har ▸ ha)
    · intro s
      by_cases hs : s = r
      · subst hs
        simp
      · simp only [hs, if_false, reduceIte, List.mem_append, List.mem_singleton]
        rw [hmap s]
        simp [hs]
  · rw [citedStep_neg hc]
    exact ⟨hnd, hmap⟩

theorem citedFold_inv (all : List String) :
    ∀ (todo : List String) (acc : PreorderAcc),
      AccInv acc → AccInv (todo.foldl (citedStep all) acc) := by
  intro todo
  induction todo with
  | nil => intro acc h; exact h
  | cons r rest ih => intro acc h; exact ih _ (citedStep_inv h)

/-- The preordered list built by the cited-refs loop agrees with the
list-level first-appearance fold. -/
theorem citedFold_list (all : List String) :
    ∀ (todo : List String) (acc : PreorderAcc), AccInv acc →
      (todo.foldl (citedStep all) acc).preordered =
        todo.foldl
          (fun pre r => if all.contains r ∧ ¬ pre.contains r then pre ++ [r] else pre)
          acc.preordered := by
  intro todo
  induction todo with
  | nil => intro acc _; rfl
  | cons r rest ih =>
    intro acc h
    simp only [List.foldl_cons]
    rw [ih _ (citedStep_inv h)]
    congr 1
    have hmem : acc.citation_numbers r = none ↔ ¬ (acc.preordered.contains r = true) := by
      rw [(h.2 r)]
      constructor
      · intro hn hcon
        exact hn (List.elem_iff.mp hcon)
      · intro hn hcon
        exact hn (List.elem_iff.mpr hcon)
    by_cases hc : (all.contains r : Prop) ∧ acc.citation_numbers r = none
    · have hcl : (all.contains r : Prop) ∧ ¬ (acc.preordered.contains r = true) :=
        ⟨hc.1, hmem.mp hc.2⟩
      rw [citedStep_pos hc, if_pos hcl]
    · have hcl : ¬ ((all.contains r : Prop) ∧ ¬ (acc.preordered.contains r = true)) := by
        intro hcon
        exact hc ⟨hcon.1, hmem.mpr hcon.2⟩
      rw [citedStep_neg hc, if_neg hcl]

/-- Everything the cited-refs loop pushes comes from the accumulator or the
cite list. -/
theorem citedFold_subset (all : List String) :
    ∀ (todo : List String) (acc : PreorderAcc) (s : String),
      s ∈ (todo.foldl (citedStep all) acc).preordered →
      s ∈ acc.preordered ∨ s ∈ todo := by
  intro todo
  induction todo with
  | nil => intro acc s h; exact Or.inl h
  | cons r rest ih =>
    intro acc s h
    rcases ih _ s h with hacc | hrest
    · by_cases hc : (all.contains r : Prop) ∧ acc.citation_numbers r = none
      · rw [citedStep_pos hc] at hacc
        rw [List.mem_append, List.mem_singleton] at hacc
        rcases hacc with h1 | h1
        · exact Or.inl h1
        · exact Or.inr (by simp [h1])
      · rw [citedStep_neg hc] at hacc
        exact Or.inl hacc
    · exact Or.inr (by simp [hrest])

/-- The uncited loop appends every id unconditionally. -/
theorem uncitedFold_pre :
    ∀ (uncited : List String) (acc : PreorderAcc),
      (uncited.foldl uncitedStep acc).preordered = acc.preordered ++ uncited := by
  intro uncited
  induction uncited with
  | nil => intro acc; simp
  | cons r rest ih =>
    intro acc
    simp only [List.foldl_cons]
    rw [ih (uncitedStep acc r)]
    show (acc.preordered ++ [r]) ++ rest = acc.preordered ++ r :: rest
    simp

/-- The final numbering fold only touches keys occurring in the list. -/
theorem enumFold_other :
    ∀ (refs : List String) (k : Nat) (m : String → Option Nat) (s : String),
      s ∉ refs →
      ((refs.enumFrom k).foldl
        (fun m ir => fun s => if s = ir.2 then some (ir.1 + 1) else m s) m) s = m s := by
  intro refs
  induction refs with
  | nil => intro k m s _; rfl
  | cons r rest ih =>
    intro k m s hs
    rw [List.enumFrom_cons]
    simp only [List.foldl_cons]
    rw [ih]
    · have : ¬ s = r := fun h => hs (by simp [h])
      simp [this]
    · exact fun h => hs (by simp [h])

/-- After the final numbering fold, each ref of a duplicate-free list maps
to its (1-based, offset by `k`) position. -/
theorem enumFold_getElem :
    ∀ (refs : List String) (k : Nat) (m : String → Option Nat),
      refs.Nodup → ∀ (i : Nat) (hi : i < refs.length),
        ((refs.enumFrom k).foldl
          (fun m ir => fun s => if s = ir.2 then some (ir.1 + 1) else m s) m) refs[i]
          = some (k + i + 1) := by
  intro refs
  induction refs with
  | nil => intro k m _ i hi; simp at hi
  | cons r rest ih =>
    intro k m hnd i hi
    rw [List.nodup_cons] at hnd
    rw [List.enumFrom_cons]
    simp only [List.foldl_cons]
    cases i with
    | zero =>
      rw [List.getElem_cons_zero, enumFold_other rest (k + 1) _ r hnd.1]
      simp
    | succ i' =>
      have hi' : i' < rest.length := by simpa using hi
      rw [List.getElem_cons_succ]
      have := ih (k + 1) (fun s => if s = r then some (k + 1) else m s) hnd.2 i' hi'
      rw [this]
      congr 1
      omega

/-! ## C3 -/

/-- C3 counterexample: an uncited entry may duplicate a cited reference
(the code's comment allows it), and then the reference appears twice in the
sorted-refs list while its citation number is the 1-based position of the
*last* occurrence, not of "its" (first) index: with one cite of "a" and
uncited list ["a"], the list is ["a", "a"] and the number is 2, but the
first 1-based index is 1. -/
theorem c3_duplicate_uncited :
    (sorted_refs ["a"] ["a"] ["a"] none).1 = ["a", "a"] ∧
    (sorted_refs ["a"] ["a"] ["a"] none).2 "a" = some 2 ∧
    (sorted_refs ["a"] ["a"] ["a"] none).1.indexOf "a" + 1 = 1 := by
  refine ⟨rfl, rfl, rfl⟩

/-- C3 (amended): provided the uncited list has no duplicates and shares no
id with the cites (so the sorted-refs list is duplicate-free), every
reference's citation number is its 1-based index in the sorted-refs list;
and before any bibliography sort is applied the list is the cited
references in first-appearance order followed by the uncited references in
insertion order, every uncited number exceeding every cited number. -/
theorem c3_sorted_refs_numbering (all citeRefs uncited : List String)
    (bibSort : Option (String → String → Ordering))
    (hu : uncited.Nodup) (hdisj : ∀ u ∈ uncited, u ∉ citeRefs) :
    (∀ (i : Nat) (hi : i < (sorted_refs all citeRefs uncited bibSort).1.length),
      (sorted_refs all citeRefs uncited bibSort).2
          (sorted_refs all citeRefs uncited bibSort).1[i] = some (i + 1)) ∧
    (bibSort = none →
      (sorted_refs all citeRefs uncited bibSort).1 =
        cited_first_appearance all citeRefs ++ uncited ∧
      ∀ u ∈ uncited, ∀ c ∈ cited_first_appearance all citeRefs,
        ∃ nu nc, (sorted_refs all citeRefs uncited bibSort).2 u = some nu ∧
          (sorted_refs all citeRefs uncited bibSort).2 c = some nc ∧ nc < nu) := by
  have hinv0 : AccInv { preordered := [], citation_numbers := fun _ => none, i := 1 } :=
    ⟨List.nodup_nil, by simp⟩
  have hinv1 := citedFold_inv all citeRefs _ hinv0
  have hpre1 : (citeRefs.foldl (citedStep all)
      { preordered := [], citation_numbers := fun _ => none, i := 1 }).preordered =
      cited_first_appearance all citeRefs :=
    citedFold_list all citeRefs _ hinv0
  have hsub : ∀ s ∈ cited_first_appearance all citeRefs, s ∈ citeRefs := by
    intro s hs
    rw [← hpre1] at hs
    rcases citedFold_subset all citeRefs _ s hs with h | h
    · simp at h
    · exact h
  have hpre2 : (uncited.foldl uncitedStep (citeRefs.foldl (citedStep all)
      { preordered := [], citation_numbers := fun _ => none, i := 1 })).preordered =
      cited_first_appearance all citeRefs ++ uncited := by
    rw [uncitedFold_pre, hpre1]
  have hnd2 : (cited_first_appearance all citeRefs ++ uncited).Nodup := by
    rw [List.nodup_append]
    refine ⟨hpre1 ▸ hinv1.1, hu, ?_⟩
    intro a ha hau
    exact hdisj a hau (hsub a ha)
  have hmap_eq : (sorted_refs all citeRefs uncited bibSort).2 =
      ((sorted_refs all citeRefs uncited bibSort).1.enumFrom 0).foldl
        (fun m ir => fun s => if s = ir.2 then some (ir.1 + 1) else m s)
        (uncited.foldl uncitedStep (citeRefs.foldl (citedStep all)
          { preordered := [], citation_numbers := fun _ => none, i := 1 })).citation_numbers :=
    rfl
  have hrefs_nd : (sorted_refs all citeRefs uncited bibSort).1.Nodup := by
    rcases bibSort with _ | cmp
    · simpa [sorted_refs, hpre2] using hnd2
    · have hperm := List.mergeSort_perm
        (uncited.foldl uncitedStep (citeRefs.foldl (citedStep all)
          { preordered := [], citation_numbers := fun _ => none, i := 1 })).preordered
        (fun a b => cmp a b ≠ .gt)
      have : (sorted_refs all citeRefs uncited (some cmp)).1.Perm
          (cited_first_appearance all citeRefs ++ uncited) := by
        simpa [sorted_refs, hpre2] using hperm
      exact this.symm.nodup hnd2
  have hpart1 : ∀ (i : Nat) (hi : i < (sorted_refs all citeRefs uncited bibSort).1.length),
      (sorted_refs all citeRefs uncited bibSort).2
        (sorted_refs all citeRefs uncited bibSort).1[i] = some (i + 1) := by
    intro i hi
    rw [hmap_eq]
    simpa using enumFold_getElem (sorted_refs all citeRefs uncited bibSort).1 0 _ hrefs_nd i hi
  refine ⟨hpart1, ?_⟩
  rintro rfl
  have hrefs : (sorted_refs all citeRefs uncited none).1 =
      cited_first_appearance all citeRefs ++ uncited := by
    simpa [sorted_refs] using hpre2
  refine ⟨hrefs, ?_⟩
  intro u hu' c hc
  obtain ⟨ku, hku, hku_eq⟩ := List.mem_iff_getElem.mp hu'
  obtain ⟨kc, hkc, hkc_eq⟩ := List.mem_iff_getElem.mp hc
  have hlen : (sorted_refs all citeRefs uncited none).1.length =
      (cited_first_appearance all citeRefs).length + uncited.length := by
    rw [hrefs, List.length_append]
  have hiu : (cited_first_appearance all citeRefs).length + ku <
      (sorted_refs all citeRefs uncited none).1.length := by omega
  have hic : kc < (sorted_refs all citeRefs uncited none).1.length := by omega
  have hu_at : (sorted_refs all citeRefs uncited none).1[(cited_first_appearance all citeRefs).length + ku] = u := by
    rw [List.getElem_of_eq hrefs, List.getElem_append_right (by omega)]
    simpa using hku_eq
  have hc_at : (sorted_refs all citeRefs uncited none).1[kc] = c := by
    rw [List.getElem_of_eq hrefs, List.getElem_append_left hkc]
    exact hkc_eq
  have hnu := hpart1 _ hiu
  have hnc := hpart1 _ hic
  rw [hu_at] at hnu
  rw [hc_at] at hnc
  exact ⟨_, _, hnu, hnc, by omega⟩

/-- C3 witness: cites `b, a, b` over references `a, b, u` with uncited
`[u]` and no bibliography sort give sorted refs `[b, a, u]`, and the
uncited ref is numbered 3, after all cited numbers. -/
theorem c3_sorted_refs_numbering_witness :
    (sorted_refs ["a", "b", "u"] ["b", "a", "b"] ["u"] none).1 = ["b", "a", "u"] ∧
    (sorted_refs ["a", "b", "u"] ["b", "a", "b"] ["u"] none).2 "u" = some 3 := by
  have h := c3_sorted_refs_numbering ["a", "b", "u"] ["b", "a", "b"] ["u"] none
    (by decide) (by decide)
  have h2 : (sorted_refs ["a", "b", "u"] ["b", "a", "b"] ["u"] none).1 = ["b", "a", "u"] := by
    rw [(h.2 rfl).1]
    rfl
  have hlen : 2 < (sorted_refs ["a", "b", "u"] ["b", "a", "b"] ["u"] none).1.length := by
    rw [h2]
    decide
  have h1 := h.1 2 hlen
  have hat : (sorted_refs ["a", "b", "u"] ["b", "a", "b"] ["u"] none).1[2] = "u" := by
    rw [List.getElem_of_eq h2]
    rfl
  rw [hat] at h1
  exact ⟨h2, h1⟩

/-! ## C6 -/

/-- C6: in every sort-key comparison performed by `bib_ordering` (each key
contributes through `keyOrd`, and the loop's final value is the last key's
`keyOrd`), a missing (`None`) value compares greater than a present one
regardless of the key's direction, and the descending reversal is applied
only when both values are present. -/
theorem c6_missing_values_demoted {α : Type} (cmp : α → α → Ordering) :
    (∀ (keys : List (SortKeyEval α)) (k : SortKeyEval α),
      bib_ordering cmp (keys ++ [k]) = keyOrd cmp k) ∧
    (∀ (dir : Option SortDirection) (b : α), keyOrd cmp ⟨dir, none, some b⟩ = .gt) ∧
    (∀ (dir : Option SortDirection) (a : α), keyOrd cmp ⟨dir, some a, none⟩ = .lt) ∧
    (∀ (a b : α),
      keyOrd cmp ⟨some .descending, some a, some b⟩ = (cmp a b).swap ∧
      keyOrd cmp ⟨some .ascending, some a, some b⟩ = cmp a b ∧
      keyOrd cmp ⟨none, some a, some b⟩ = cmp a b) := by
  refine ⟨?_, ?_, ?_, ?_⟩
  · intro keys k
    simp [bib_ordering, List.foldl_append]
  · intro dir b
    cases dir with
    | none => rfl
    | some d => cases d <;> rfl
  · intro dir a
    cases dir with
    | none => rfl
    | some d => cases d <;> rfl
  · intro a b
    exact ⟨rfl, rfl, rfl⟩

/-! ## C8 -/

mutual

/-- One flip-flopped inline is a fixed point of a second pass from the same
state: handled constructors are reproduced with the same toggles, and the
`Span`s produced by flipping are untouched by the catch-all arm. -/
theorem flip_flop_idem_one (s : FlipFlopState) (i : Inline) :
    (flip_flop s ((flip_flop s i).getD i)).getD ((flip_flop s i).getD i)
      = (flip_flop s i).getD i := by
  obtain ⟨se, ss, sc, sq⟩ := s
  cases i with
  | str t => rfl
  | code a t => rfl
  | space => rfl
  | softBreak => rfl
  | lineBreak => rfl
  | span a ils => rfl
  | rawInline f t => rfl
  | emph ils =>
    cases se with
    | true => rfl
    | false =>
      exact congrArg (fun l => Inline.emph l)
        (flip_flop_inlines_idem ⟨true, ss, sc, sq⟩ ils)
  | strong ils =>
    cases ss with
    | true => rfl
    | false =>
      exact congrArg (fun l => Inline.strong l)
        (flip_flop_inlines_idem ⟨se, true, sc, sq⟩ ils)
  | smallCaps ils =>
    cases sc with
    | true => rfl
    | false =>
      exact congrArg (fun l => Inline.smallCaps l)
        (flip_flop_inlines_idem ⟨se, ss, true, sq⟩ ils)
  | quoted q ils =>
    cases sq with
    | true =>
      exact congrArg (fun l => Inline.quoted .singleQuote l)
        (flip_flop_inlines_idem ⟨se, ss, sc, false⟩ ils)
    | false =>
      exact congrArg (fun l => Inline.quoted .doubleQuote l)
        (flip_flop_inlines_idem ⟨se, ss, sc, true⟩ ils)
  | strikeout ils =>
    exact congrArg (fun l => Inline.strikeout l)
      (flip_flop_inlines_idem ⟨se, ss, sc, sq⟩ ils)
  | superscript ils =>
    exact congrArg (fun l => Inline.superscript l)
      (flip_flop_inlines_idem ⟨se, ss, sc, sq⟩ ils)
  | subscript ils =>
    exact congrArg (fun l => Inline.subscript l)
      (flip_flop_inlines_idem ⟨se, ss, sc, sq⟩ ils)
  | link a ils t =>
    exact congrArg (fun l => Inline.link a l t)
      (flip_flop_inlines_idem ⟨se, ss, sc, sq⟩ ils)
  | note blocks =>
    match blocks with
    | [] => rfl
    | .plain ils :: bs => rfl
    | .para ils :: bs =>
      exact congrArg (fun l => Inline.note [Block.para l])
        (flip_flop_inlines_idem ⟨se, ss, sc, sq⟩ ils)

/-- The flip-flop pass over a list is idempotent at every state. -/
theorem flip_flop_inlines_idem (s : FlipFlopState) (ils : List Inline) :
    flip_flop_inlines s (flip_flop_inlines s ils) = flip_flop_inlines s ils := by
  match ils with
  | [] => rfl
  | i :: rest =>
    simp only [flip_flop_inlines]
    rw [flip_flop_idem_one s i, flip_flop_inlines_idem s rest]

end

/-- C8: applying the Pandoc output pass to its own result is the identity —
a second flip-flop pass changes nothing, since directly nested
italic/strong/small-caps have become `csl-no-*` spans (which the pass leaves
alone) and quote nesting already alternates with the traversal state. -/
theorem c8_flip_flop_idempotent (inter : List Inline) :
    output (output inter) = output inter :=
  flip_flop_inlines_idem FlipFlopState.default inter

/-! ## C7 -/

namespace natural_sort

theorem cmpLoop_ne : ∀ (l : List (Token × Token)) (o : Ordering), o ≠ .eq → cmpLoop l o = o
  | [], _, _ => rfl
  | _ :: _, _, h => by simp [cmpLoop, h]

/-- The source loop over the zipped token streams computes exactly the
first-non-equal-token comparison. -/
theorem cmpLoop_zip_spec :
    ∀ (as bs : List Token), cmpLoop (as.zip bs) .eq = specFirstDecides as bs := by
  intro as
  induction as with
  | nil => intro bs; cases bs <;> rfl
  | cons a as ih =>
    intro bs
    cases bs with
    | nil => rfl
    | cons b bs =>
      show cmpLoop ((a, b) :: as.zip bs) .eq = _
      rw [cmpLoop]
      simp only [ne_eq, not_true_eq_false, if_false, reduceIte]
      rcases hp : pcmp a b with _ | c
      · simp only [specFirstDecides, hp]
        exact ih bs
      · by_cases hc : c = .eq
        · subst hc
          simp only [specFirstDecides, hp, if_pos rfl, reduceIte]
          exact ih bs
        · simp only [specFirstDecides, hp, hc, if_false, reduceIte]
          exact cmpLoop_ne _ _ hc

end natural_sort

/-- C7: `natural_cmp` tokenizes both strings (`U+E000…U+E001` date
segments, parsed as signed-year dates or `'/'`-split ranges; `U+E002…E003`
numeric segments; anything else case-insensitive text) and the first
non-equal comparable token pair decides; demonstrated on the claim's shapes:
a `'-'`-prefixed BCE year sorts before a CE year, a shorter date loses the
year-tiebreak to its month/day text, ranges compare start-then-end, number
segments compare numerically (10 after 9, unlike the string order), and
plain text compares case-insensitively. -/
theorem c7_natural_cmp_tokens :
    (∀ a b : List Char,
      natural_sort.natural_cmp a b =
        natural_sort.specFirstDecides (natural_sort.tokens a) (natural_sort.tokens b)) ∧
    natural_sort.natural_cmp "a-0100_".toList "a0100_".toList
      = .lt ∧
    natural_sort.natural_cmp "a2000_".toList "a2000_04".toList
      = .lt ∧
    natural_sort.natural_cmp "2009_0407/0000_0000".toList
      "2009_0407/2010_0509".toList = .lt ∧
    natural_sort.natural_cmp "10".toList "9".toList = .gt ∧
    natural_sort.natural_cmp "aAa".toList "AaA".toList = .eq ∧
    natural_sort.natural_cmp "a".toList "z".toList = .lt := by
  refine ⟨?_, by decide, by decide, by decide, by decide, by decide, by decide⟩
  intro a b
  exact natural_sort.cmpLoop_zip_spec (natural_sort.tokens a) (natural_sort.tokens b)

/-! ## C9 -/

/-- C9: every entry returned by `get_bibliography` has a non-empty value:
references whose rendering is present but empty come back with the CSL
style-error sentinel instead. -/
theorem c9_bibliography_nonempty (sortedRefs : List String) (bibMap : String → Option String) :
    (∀ e ∈ get_bibliography sortedRefs bibMap, e.value ≠ "") ∧
    (∀ k ∈ sortedRefs, bibMap k = some "" →
      ({ id := k, value := "[CSL STYLE ERROR: reference with no printed form.]" } : BibEntry)
        ∈ get_bibliography sortedRefs bibMap) := by
  constructor
  · intro e he
    simp only [get_bibliography, List.mem_map, List.mem_filterMap,
      Option.map_eq_some'] at he
    obtain ⟨⟨k, v⟩, ⟨a, _ha, w, _hw, hpair⟩, rfl⟩ := he
    cases hpair
    by_cases hv : v.isEmpty
    · simp [hv]
    · have : ¬ v = "" := fun hcon => hv (by rw [hcon]; decide)
      simpa [hv] using this
  · intro k hk hmap
    simp only [get_bibliography, List.mem_map, List.mem_filterMap,
      Option.map_eq_some']
    have h : ("" : String).isEmpty = true := by decide
    exact ⟨(k, ""), ⟨k, hk, "", hmap, rfl⟩, by simp [h]⟩

/-- C9 witness: with one sorted ref whose rendering is empty, the returned
entry carries the sentinel, which is non-empty. -/
theorem c9_bibliography_nonempty_witness :
    ({ id := "a", value := "[CSL STYLE ERROR: reference with no printed form.]" } : BibEntry)
      ∈ get_bibliography ["a"] (fun _ => some "") ∧
    ({ id := "a", value := "[CSL STYLE ERROR: reference with no printed form.]" } : BibEntry).value
      ≠ "" :=
  ⟨(c9_bibliography_nonempty ["a"] (fun _ => some "")).2 "a" (by decide) rfl,
    (c9_bibliography_nonempty ["a"] (fun _ => some "")).1 _
      ((c9_bibliography_nonempty ["a"] (fun _ => some "")).2 "a" (by decide) rfl)⟩

end Citeproc
